import Mathlib

/-!
Verification development for the `qdownload` core of qshell
(`src/qshell/qdownload.go`): the download job controller
(`QiniuDownload`), its per-object classification, the resume record
store (leveldb), the worker pool, and the transfer function
(`downloadFile`).

Strings are modelled as `List Char`; file contents as `List Nat`
(bytes); the leveldb resume store as an association list (a later
`Put` shadows an earlier one, matching overwrite semantics); file
sizes and timestamps as `Int` (Go `int64`; the listing parser rejects
values outside the int64 range, as `strconv.ParseInt(_, 10, 64)`
does).  Path cleaning performed by Go's `filepath.Join`/`filepath.Abs`
is not modelled: every path appearing in this development is already
clean, so `Join` is concatenation with a separator and `Abs` prefixes
the working directory to a relative path.
-/

namespace Qdownload

abbrev Str := List Char

/-- The whitespace set of Go's `strings.TrimSpace` (`unicode.IsSpace`
restricted to the Latin-1 range): TAB, LF, VT, FF, CR, SP, NEL, NBSP. -/
def isGoSpace (c : Char) : Bool :=
  c.toNat = 9 || c.toNat = 10 || c.toNat = 11 || c.toNat = 12 ||
  c.toNat = 13 || c.toNat = 32 || c.toNat = 133 || c.toNat = 160

/-- Go's `strings.TrimSpace`: drop leading and trailing whitespace. -/
def trimSpace (s : Str) : Str :=
  ((s.dropWhile isGoSpace).reverse.dropWhile isGoSpace).reverse

/-- Go's `strings.Split(s, sep)` for a one-character separator: the list of
substrings between occurrences of `sep`; never empty. -/
def splitOn (sep : Char) : Str → List Str
  | [] => [[]]
  | c :: rest =>
    let r := splitOn sep rest
    if c = sep then [] :: r
    else (c :: r.headD []) :: r.tail

/-- The `fmt.Sprintf("%d", _)` digit character for `d < 10`. -/
def digitChar (d : Nat) : Char := Char.ofNat (48 + d)

def isDigitChar (c : Char) : Bool := 48 ≤ c.toNat && c.toNat ≤ 57

def charDigit (c : Char) : Nat := c.toNat - 48

/-- Decimal digits of `n`, most significant first; fuel-recursive so
that it reduces by kernel computation (`fuel ≥ n` suffices). -/
def natEncodeAux : Nat → Nat → List Char
  | 0, _ => []
  | fuel + 1, n =>
    if n = 0 then []
    else natEncodeAux fuel (n / 10) ++ [digitChar (n % 10)]

/-- Decimal rendering of a natural number, as `fmt.Sprintf("%d", _)`
produces it. -/
def natEncode (n : Nat) : Str :=
  if n = 0 then ['0'] else natEncodeAux n n

/-- Decimal rendering of an `int64`, as `fmt.Sprintf("%d", _)`. -/
def intEncode (m : Int) : Str :=
  if m < 0 then '-' :: natEncode m.natAbs else natEncode m.toNat

/-- Left-to-right accumulation of decimal digits; `none` on the first
non-digit character. -/
def parseNatAux : List Char → Nat → Option Nat
  | [], acc => some acc
  | c :: rest, acc =>
    if isDigitChar c then parseNatAux rest (acc * 10 + charDigit c) else none

/-- All-digit decimal parse; `none` on the empty string. -/
def parseNatDigits (cs : Str) : Option Nat :=
  if cs = [] then none else parseNatAux cs 0

/-- The int64 range check `strconv.ParseInt(_, 10, 64)` performs. -/
def int64Range (v : Int) : Option Int :=
  if -(2 ^ 63) ≤ v ∧ v ≤ 2 ^ 63 - 1 then some v else none

/-- Go's `strconv.ParseInt(s, 10, 64)`: optional sign, at least one digit,
result within the int64 range; `none` on any error. -/
def parseInt64 (cs : Str) : Option Int :=
  match cs with
  | [] => none
  | c :: rest =>
    if c = '-' then
      match parseNatDigits rest with
      | none => none
      | some n => int64Range (-(n : Int))
    else if c = '+' then
      match parseNatDigits rest with
      | none => none
      | some n => int64Range (n : Int)
    else
      match parseNatDigits (c :: rest) with
      | none => none
      | some n => int64Range (n : Int)

/-- Parse with the error ignored, as in
`oldFileLmd, _ := strconv.ParseInt(...)`: `0` on a syntax error. -/
def parseIntD (cs : Str) : Int := (parseInt64 cs).getD 0

/-- The resume record value `fmt.Sprintf("%d|%d", fileMtime, fileSize)`
written at line 345 of qdownload.go. -/
def encodeEntry (fileMtime fileSize : Int) : Str :=
  intEncode fileMtime ++ '|' :: intEncode fileSize

/-- Recover the recorded last-modified time from a resume record value:
split on `"|"` and `ParseInt` the first item, error ignored
(lines 280–281 / 313–314 of qdownload.go). -/
def decodeLmd (v : Str) : Int := parseIntD ((splitOn '|' v).getD 0 [])

/-- Go's `filepath.Join` of two already-clean path elements. -/
def joinPath (dir name : Str) : Str :=
  if dir = [] then name
  else if name = [] then dir
  else dir ++ '/' :: name

def isAbsPath (p : Str) : Bool := p.headD ' ' = '/'

/-- Go's `filepath.Abs` for already-clean paths: prefix the working
directory when relative. -/
def absPath (cwd p : Str) : Str := if isAbsPath p then p else joinPath cwd p

/-- The temp path `localFilePathTmp := fmt.Sprintf("%s.tmp", localFilePath)`. -/
def tmpPath (p : Str) : Str := p ++ ['.', 't', 'm', 'p']

/-- Lines 207–214: split the configured suffix string on `","` and keep
the entries whose `TrimSpace` is nonempty (the entries themselves are
kept untrimmed). -/
def computeFilterSuffixes (suffixes : Str) : List Str :=
  (splitOn ',' suffixes).filter (fun s => trimSpace s ≠ [])

/-- The resume leveldb, as the sequence of its `Put`s (most recent
first); `Get` finds the most recent value for a key. -/
abbrev Store := List (Str × Str)

def storeGet : Store → Str → Option Str
  | [], _ => none
  | (k, v) :: rest, key => if k = key then some v else storeGet rest key

def storePut (store : Store) (k v : Str) : Store := (k, v) :: store

/-- The fields of `DownloadConfig` consulted by the classification
loop (`dest_dir`, `suffixes`); the remaining fields only affect
logging and URL construction. -/
structure DownConfig where
  destDir : Str
  suffixes : Str

/-- Snapshot of the local filesystem as seen by the controller's
`os.Stat` calls: size of the file at a path, `none` when the stat
fails (file absent). -/
structure FView where
  statFinal : Str → Option Int
  statTmp : Str → Option Int

/-- The fields `items := strings.Split(strings.TrimSpace(line), "\t")`
(lines 218–219). -/
def lineItems (rawLine : Str) : List Str := splitOn '\t' (trimSpace rawLine)

/-- How the loop body of `QiniuDownload` (lines 216–370) disposes of
one listing line. -/
inductive LineAction where
  /-- fewer than 4 tab-separated fields: body skipped (line 220). -/
  | shortLine : LineAction
  /-- suffix allow-list configured and no suffix matches (line 233). -/
  | filtered : LineAction
  /-- size field `ParseInt(items[1])` failed (line 241). -/
  | badSize : LineAction
  /-- mtime field `ParseInt(items[3])` failed (line 247). -/
  | badMtime : LineAction
  /-- classified as already satisfied (line 283 or line 297). -/
  | satisfied : LineAction
  /-- temp file already at least target size: renamed to the final
  path with no transfer (line 322). -/
  | promote : LineAction
  /-- a transfer task is enqueued with these `downNewLog` and
  `fromBytes` values (line 350). -/
  | dispatch (downNewLog : Bool) (fromBytes : Int) : LineAction
deriving DecidableEq, Repr

/-- The values captured by the enqueued task closure (lines 350–368). -/
structure DownTask where
  fileKey : Str
  fileSize : Int
  downNewLog : Bool
  fromBytes : Int
deriving DecidableEq, Repr

/-- Observable outcome of one iteration of the controller loop:
classification, the store after the iteration, the enqueued task, the
store write performed, the rename performed, the deltas to
`existsFileCount` and `skipBySuffixes`, and whether the iteration
emitted a log line (`promote` logs only when its rename fails;
the error-free rename is modelled). -/
structure StepResult where
  action : LineAction
  store' : Store
  enqueued : Option DownTask
  storeWrite : Option (Str × Str)
  renamed : Option (Str × Str)
  existsDelta : Int
  skipDelta : Int
  logged : Bool
deriving DecidableEq, Repr

/-- One iteration of the listing loop of `QiniuDownload`
(lines 216–370), translated branch by branch.  `cwd` is the working
directory used by `filepath.Abs` (line 268). -/
def controllerStep (cwd : Str) (cfg : DownConfig) (fsv : FView)
    (store : Store) (rawLine : Str) : StepResult :=
  let items := lineItems rawLine
  if 4 ≤ items.length then
    let fileKey := items.getD 0 []
    let filterSuffixes := computeFilterSuffixes cfg.suffixes
    if 0 < filterSuffixes.length ∧
        (filterSuffixes.any fun s => s.isSuffixOf fileKey) = false then
      ⟨.filtered, store, none, none, none, 0, 1, true⟩
    else
      match parseInt64 (items.getD 1 []) with
      | none => ⟨.badSize, store, none, none, none, 0, 0, true⟩
      | some fileSize =>
        match parseInt64 (items.getD 3 []) with
        | none => ⟨.badMtime, store, none, none, none, 0, 0, true⟩
        | some fileMtime =>
          let localFilePath := joinPath cfg.destDir fileKey
          let localAbsFilePath := absPath cwd localFilePath
          let localFilePathTmp := tmpPath localFilePath
          let dispatch : Bool → Int → Bool → StepResult :=
            fun downNewLog fromBytes logged =>
              let rVal := encodeEntry fileMtime fileSize
              ⟨.dispatch downNewLog fromBytes,
               storePut store localAbsFilePath rVal,
               some ⟨fileKey, fileSize, downNewLog, fromBytes⟩,
               some (localAbsFilePath, rVal), none, 0, 0, logged⟩
          match fsv.statFinal localFilePath with
          | some localSize =>
            match storeGet store localFilePath with
            | some oldFileInfo =>
              if decodeLmd oldFileInfo = fileMtime ∧ localSize = fileSize then
                ⟨.satisfied, store, none, none, none, 1, 0, true⟩
              else dispatch true 0 true
            | none =>
              if localSize ≠ fileSize then dispatch true 0 true
              else ⟨.satisfied, store, none, none, none, 1, 0, true⟩
          | none =>
            match fsv.statTmp localFilePathTmp with
            | some tmpSize =>
              match storeGet store localFilePath with
              | some oldFileInfo =>
                if decodeLmd oldFileInfo = fileMtime then
                  if tmpSize < fileSize then dispatch false tmpSize false
                  else ⟨.promote, store, none, none,
                        some (localFilePathTmp, localFilePath), 0, 0, false⟩
                else dispatch true 0 true
              | none => dispatch true 0 true
            | none => dispatch true 0 false
  else ⟨.shortLine, store, none, none, none, 0, 0, false⟩

/-- Accumulated controller state across the listing loop. -/
structure RunState where
  store : Store
  tasks : List DownTask
  existsFileCount : Int
  skipBySuffixes : Int
deriving DecidableEq, Repr

def runStep (cwd : Str) (cfg : DownConfig) (fsv : FView)
    (s : RunState) (rawLine : Str) : RunState :=
  let r := controllerStep cwd cfg fsv s.store rawLine
  ⟨r.store', s.tasks ++ r.enqueued.toList,
   s.existsFileCount + r.existsDelta, s.skipBySuffixes + r.skipDelta⟩

/-- The whole listing loop: fold `controllerStep` over the listing
lines in file order. -/
def runLines (cwd : Str) (cfg : DownConfig) (fsv : FView)
    (s : RunState) : List Str → RunState
  | [] => s
  | l :: rest => runLines cwd cfg fsv (runStep cwd cfg fsv s l) rest

/-- Modelled from the spec: `GetFileLineCount` (defined outside this
file) returns the number of lines of the listing file; line 193 reports
it as the `total` counter. -/
def totalFileCount (lines : List Str) : Int := lines.length

/-! ## Transfer function (`downloadFile`, lines 404–512) -/

/-- Contents of the two local artifacts of one object: the final file
and the temporary file (`none` = absent), as lists of bytes. -/
structure FileSys where
  finalContent : Option (List Nat)
  tmpContent : Option (List Nat)
deriving DecidableEq, Repr

/-- Outcome of the network interaction: `NewRequest` error, `client.Do`
error, or a response with a status code and a body. -/
inductive NetEnv where
  | reqErr : NetEnv
  | respErr : NetEnv
  | resp (status : Nat) (body : List Nat) : NetEnv
deriving DecidableEq, Repr

/-- Outcome of `io.Copy`: full copy, or an error after `k` bytes were
written. -/
inductive CopyOutcome where
  | ok : CopyOutcome
  | errAfter (k : Nat) : CopyOutcome
deriving DecidableEq, Repr

/-- Oracle for the effectful calls `downloadFile` makes: `MkdirAll`,
proxy-URL parse, the HTTP exchange, `OpenFile`/`Create`, `io.Copy`,
and `Rename`. -/
structure TransferEnv where
  mkdirOk : Bool
  proxyOk : Bool
  net : NetEnv
  openOk : Bool
  copy : CopyOutcome
  renameOk : Bool
deriving DecidableEq, Repr

/-- Result of `downloadFile`: the returned error flag, the local
artifacts afterwards, the `Range` header sent (`some k` for
`"bytes=k-"`, line 459), and the open mode used for the temporary file
(`some true` = `O_APPEND|O_WRONLY`, `some false` = `Create`,
`none` = the open was never reached). -/
structure TransferResult where
  err : Bool
  fs : FileSys
  rangeRequested : Option Int
  appendUsed : Option Bool
deriving DecidableEq, Repr

/-- The transfer `downloadFile` (lines 404–512), with the external effects supplied
by `env`.  The temp file is opened in append mode iff `fromBytes ≠ 0`
(line 474); opening in append mode fails when the temp file is absent
(`O_APPEND|O_WRONLY` without `O_CREATE`); `Create` truncates.  On a
copy error the partial temp file is left in place (lines 487–492); only
a full copy is followed by the rename to the final path (line 499). -/
def downloadFileM (env : TransferEnv) (fromBytes : Int)
    (fs : FileSys) : TransferResult :=
  if env.mkdirOk = false then ⟨true, fs, none, none⟩
  else if env.proxyOk = false then ⟨true, fs, none, none⟩
  else
    match env.net with
    | .reqErr => ⟨true, fs, none, none⟩
    | .respErr =>
      ⟨true, fs, if fromBytes = 0 then none else some fromBytes, none⟩
    | .resp status body =>
      let range : Option Int := if fromBytes = 0 then none else some fromBytes
      if status / 100 = 2 then
        let append : Bool := fromBytes ≠ 0
        let opened : Option (List Nat) :=
          if fromBytes ≠ 0 then
            match fs.tmpContent with
            | none => none
            | some t => if env.openOk then some t else none
          else if env.openOk then some [] else none
        match opened with
        | none => ⟨true, fs, range, some append⟩
        | some base =>
          match env.copy with
          | .errAfter k =>
            ⟨true, { fs with tmpContent := some (base ++ body.take k) },
             range, some append⟩
          | .ok =>
            let full := base ++ body
            if env.renameOk then
              ⟨false, { finalContent := some full, tmpContent := none },
               range, some append⟩
            else
              ⟨true, { fs with tmpContent := some full }, range, some append⟩
      else ⟨true, fs, range, none⟩

/-! ## Worker pool (lines 35–38 and 175–182) -/

def MIN_DOWNLOAD_THREAD_COUNT : Int := 1

def MAX_DOWNLOAD_THREAD_COUNT : Int := 2000

/-- Modelled from the spec: the worker count is "validated to be
within a sane range, e.g., 1–2000"; the validating caller of
`QiniuDownload` is outside this file, which only declares the bounds
`MIN_DOWNLOAD_THREAD_COUNT`/`MAX_DOWNLOAD_THREAD_COUNT`. -/
def validThreadCount (n : Int) : Bool :=
  MIN_DOWNLOAD_THREAD_COUNT ≤ n && n ≤ MAX_DOWNLOAD_THREAD_COUNT

/-- A Go buffered channel of tasks: its capacity and the number of
buffered (pending, not yet received) tasks. -/
structure TaskChan where
  capacity : Nat
  pending : Nat
deriving DecidableEq, Repr

/-- The channel `downloadTasks = make(chan func(), threadCount)` (line 178). -/
def makeDownloadTasks (threadCount : Int) : TaskChan :=
  ⟨threadCount.toNat, 0⟩

/-- The guard `initDownOnce.Do(...)` (lines 177–182): the task channel is created
only when the process has not initialized it yet; a later caller's
thread count is silently ignored. -/
def initDownloadTasks (existing : Option TaskChan) (threadCount : Int) :
    TaskChan :=
  match existing with
  | some c => c
  | none => makeDownloadTasks threadCount

/-- Go buffered-channel send semantics: a send blocks exactly when the
buffer already holds `capacity` tasks and no receiver is ready. -/
def sendWouldBlock (c : TaskChan) : Bool := c.capacity ≤ c.pending

/-! ## Decimal round-trip: `ParseInt` inverts `Sprintf("%d", _)` -/

theorem isDigitChar_digitChar (d : Nat) (h : d < 10) :
    isDigitChar (digitChar d) = true := by
  interval_cases d <;> decide

theorem charDigit_digitChar (d : Nat) (h : d < 10) :
    charDigit (digitChar d) = d := by
  interval_cases d <;> decide

theorem mem_natEncodeAux_isDigit (fuel : Nat) :
    ∀ n c, c ∈ natEncodeAux fuel n → isDigitChar c = true := by
  induction fuel with
  | zero => intro n c hc; simp [natEncodeAux] at hc
  | succ f ih =>
    intro n c hc
    rw [natEncodeAux] at hc
    by_cases h0 : n = 0
    · rw [if_pos h0] at hc; simp at hc
    · rw [if_neg h0] at hc
      rcases List.mem_append.mp hc with h | h
      · exact ih _ _ h
      · have hd : c = digitChar (n % 10) := by simpa using h
        subst hd
        exact isDigitChar_digitChar _ (Nat.mod_lt n (by norm_num))

theorem mem_natEncode_isDigit (n : Nat) (c : Char)
    (hc : c ∈ natEncode n) : isDigitChar c = true := by
  unfold natEncode at hc
  by_cases h0 : n = 0
  · rw [if_pos h0] at hc
    have : c = '0' := by simpa using hc
    subst this; decide
  · rw [if_neg h0] at hc
    exact mem_natEncodeAux_isDigit n n c hc

theorem natEncode_ne_nil (n : Nat) : natEncode n ≠ [] := by
  unfold natEncode
  by_cases h0 : n = 0
  · rw [if_pos h0]; simp
  · rw [if_neg h0]
    obtain ⟨m, rfl⟩ : ∃ m, n = m + 1 := ⟨n - 1, by omega⟩
    rw [natEncodeAux, if_neg h0]
    simp

theorem parseNatAux_natEncodeAux (fuel : Nat) :
    ∀ n acc rest, n ≤ fuel →
      parseNatAux (natEncodeAux fuel n ++ rest) acc =
        parseNatAux rest (acc * 10 ^ (natEncodeAux fuel n).length + n) := by
  induction fuel with
  | zero =>
    intro n acc rest hn
    interval_cases n
    simp [natEncodeAux]
  | succ f ih =>
    intro n acc rest hn
    by_cases h0 : n = 0
    · subst h0; simp [natEncodeAux]
    · have hmod : n % 10 < 10 := Nat.mod_lt n (by norm_num)
      have hdiv : n / 10 ≤ f := by
        have : n / 10 < n := Nat.div_lt_self (Nat.pos_of_ne_zero h0) (by norm_num)
        omega
      rw [natEncodeAux, if_neg h0, List.append_assoc, List.singleton_append,
        ih (n / 10) acc (digitChar (n % 10) :: rest) hdiv]
      simp only [parseNatAux]
      rw [if_pos (isDigitChar_digitChar _ hmod), charDigit_digitChar _ hmod]
      congr 1
      rw [List.length_append, List.length_singleton, pow_succ]
      have key : (acc * 10 ^ (natEncodeAux f (n / 10)).length + n / 10) * 10
            + n % 10
          = acc * (10 ^ (natEncodeAux f (n / 10)).length * 10)
            + (10 * (n / 10) + n % 10) := by ring
      rw [key, Nat.div_add_mod]

theorem parseNatDigits_natEncode (n : Nat) :
    parseNatDigits (natEncode n) = some n := by
  by_cases h0 : n = 0
  · subst h0; decide
  · rw [parseNatDigits, if_neg (natEncode_ne_nil n)]
    unfold natEncode
    rw [if_neg h0]
    have := parseNatAux_natEncodeAux n n 0 [] (le_refl n)
    rw [List.append_nil] at this
    rw [this]
    simp [parseNatAux]

theorem head_natEncode_isDigit (n : Nat) (c : Char) (rest : Str)
    (h : natEncode n = c :: rest) : isDigitChar c = true :=
  mem_natEncode_isDigit n c (by rw [h]; exact List.mem_cons_self c rest)

theorem parseInt64_intEncode (m : Int)
    (hlo : -(2 ^ 63) ≤ m) (hhi : m ≤ 2 ^ 63 - 1) :
    parseInt64 (intEncode m) = some m := by
  unfold intEncode
  by_cases hneg : m < 0
  · rw [if_pos hneg, parseInt64, if_pos rfl, parseNatDigits_natEncode]
    have habs : ((m.natAbs : Int)) = -m :=
      Int.ofNat_natAbs_of_nonpos (le_of_lt hneg)
    simp only [habs, neg_neg]
    rw [int64Range, if_pos ⟨hlo, hhi⟩]
  · rw [if_neg hneg]
    push_neg at hneg
    obtain ⟨c, rest, hc⟩ : ∃ c rest, natEncode m.toNat = c :: rest := by
      cases h : natEncode m.toNat with
      | nil => exact absurd h (natEncode_ne_nil _)
      | cons c rest => exact ⟨c, rest, rfl⟩
    rw [hc, parseInt64]
    have hdig : isDigitChar c = true := head_natEncode_isDigit _ _ _ hc
    have hcm : c ≠ '-' := by
      intro h; rw [h] at hdig; exact absurd hdig (by decide)
    have hcp : c ≠ '+' := by
      intro h; rw [h] at hdig; exact absurd hdig (by decide)
    rw [if_neg hcm, if_neg hcp, ← hc, parseNatDigits_natEncode]
    have htn : ((m.toNat : Int)) = m := Int.toNat_of_nonneg hneg
    simp only [htn]
    rw [int64Range, if_pos ⟨hlo, hhi⟩]

theorem int64Range_range (w v : Int) (h : int64Range w = some v) :
    -(2 ^ 63) ≤ v ∧ v ≤ 2 ^ 63 - 1 := by
  unfold int64Range at h
  split at h
  · cases h; assumption
  · exact absurd h (by simp)

theorem parseInt64_range (cs : Str) (v : Int) (h : parseInt64 cs = some v) :
    -(2 ^ 63) ≤ v ∧ v ≤ 2 ^ 63 - 1 := by
  match cs with
  | [] => exact absurd h (by simp [parseInt64])
  | c :: rest =>
    rw [parseInt64] at h
    by_cases h1 : c = '-'
    · rw [if_pos h1] at h
      cases hp : parseNatDigits rest with
      | none => rw [hp] at h; exact absurd h (by simp)
      | some n => rw [hp] at h; exact int64Range_range _ _ h
    · rw [if_neg h1] at h
      by_cases h2 : c = '+'
      · rw [if_pos h2] at h
        cases hp : parseNatDigits rest with
        | none => rw [hp] at h; exact absurd h (by simp)
        | some n => rw [hp] at h; exact int64Range_range _ _ h
      · rw [if_neg h2] at h
        cases hp : parseNatDigits (c :: rest) with
        | none => rw [hp] at h; exact absurd h (by simp)
        | some n => rw [hp] at h; exact int64Range_range _ _ h

/-! ## `splitOn` facts -/

theorem splitOn_ne_nil (sep : Char) (s : Str) : splitOn sep s ≠ [] := by
  cases s with
  | nil => simp [splitOn]
  | cons c rest =>
    rw [splitOn]
    by_cases h : c = sep
    · simp [h]
    · simp [h]

theorem splitOn_append (sep : Char) (a b : Str) (ha : sep ∉ a) :
    splitOn sep (a ++ sep :: b) = a :: splitOn sep b := by
  induction a with
  | nil =>
    simp only [List.nil_append, splitOn]
    simp
  | cons x a' ih =>
    have hx : x ≠ sep := fun h => ha (h ▸ List.mem_cons_self x a')
    have ha' : sep ∉ a' := fun h => ha (List.mem_cons_of_mem x h)
    simp only [List.cons_append, splitOn, if_neg hx, List.append_eq]
    rw [ih ha']
    simp

theorem mem_intEncode (m : Int) (c : Char) (hc : c ∈ intEncode m) :
    c = '-' ∨ isDigitChar c = true := by
  unfold intEncode at hc
  by_cases hneg : m < 0
  · rw [if_pos hneg] at hc
    rcases List.mem_cons.mp hc with h | h
    · exact Or.inl h
    · exact Or.inr (mem_natEncode_isDigit _ _ h)
  · rw [if_neg hneg] at hc
    exact Or.inr (mem_natEncode_isDigit _ _ hc)

theorem bar_not_mem_intEncode (m : Int) : '|' ∉ intEncode m := by
  intro h
  rcases mem_intEncode m '|' h with h | h
  · exact absurd h (by decide)
  · exact absurd h (by decide)

/-- The round-trip at the heart of resume classification: the
last-modified time recorded by the controller's `Put` is exactly what
`Get` plus `strings.Split`/`ParseInt` recovers. -/
theorem decodeLmd_encodeEntry (m s : Int)
    (hlo : -(2 ^ 63) ≤ m) (hhi : m ≤ 2 ^ 63 - 1) :
    decodeLmd (encodeEntry m s) = m := by
  unfold decodeLmd encodeEntry
  rw [splitOn_append '|' _ _ (bar_not_mem_intEncode m)]
  simp only [List.getD_cons_zero]
  rw [parseIntD, parseInt64_intEncode m hlo hhi]
  rfl

/-! ## Classification branch lemmas -/

/-- Resume branch (lines 316–319): no final file, temp file smaller
than the target, matching recorded modification time. -/
theorem controllerStep_resume (cwd : Str) (cfg : DownConfig) (fsv : FView)
    (store : Store) (rawLine : Str)
    (fileSize fileMtime tmpSize entrySize : Int)
    (h4 : 4 ≤ (lineItems rawLine).length)
    (hpass : ¬(0 < (computeFilterSuffixes cfg.suffixes).length ∧
      ((computeFilterSuffixes cfg.suffixes).any fun s =>
        s.isSuffixOf ((lineItems rawLine).getD 0 [])) = false))
    (hS : parseInt64 ((lineItems rawLine).getD 1 []) = some fileSize)
    (hM : parseInt64 ((lineItems rawLine).getD 3 []) = some fileMtime)
    (hfin : fsv.statFinal
      (joinPath cfg.destDir ((lineItems rawLine).getD 0 [])) = none)
    (htmp : fsv.statTmp
      (tmpPath (joinPath cfg.destDir ((lineItems rawLine).getD 0 [])))
      = some tmpSize)
    (hentry : storeGet store
        (joinPath cfg.destDir ((lineItems rawLine).getD 0 []))
      = some (encodeEntry fileMtime entrySize))
    (hlt : tmpSize < fileSize) :
    controllerStep cwd cfg fsv store rawLine =
      ⟨.dispatch false tmpSize,
       storePut store
         (absPath cwd (joinPath cfg.destDir ((lineItems rawLine).getD 0 [])))
         (encodeEntry fileMtime fileSize),
       some ⟨(lineItems rawLine).getD 0 [], fileSize, false, tmpSize⟩,
       some (absPath cwd (joinPath cfg.destDir ((lineItems rawLine).getD 0 [])),
         encodeEntry fileMtime fileSize),
       none, 0, 0, false⟩ := by
  have hm := parseInt64_range _ _ hM
  have hdec : decodeLmd (encodeEntry fileMtime entrySize) = fileMtime :=
    decodeLmd_encodeEntry _ _ hm.1 hm.2
  simp only [controllerStep]
  rw [if_pos h4, if_neg hpass]
  simp only [hS, hM, hfin, htmp, hentry, hdec]
  rw [if_pos trivial, if_pos hlt]

/-- Promotion branch (lines 320–327): no final file, temp file already
at least the target size, matching recorded modification time. -/
theorem controllerStep_promote (cwd : Str) (cfg : DownConfig) (fsv : FView)
    (store : Store) (rawLine : Str)
    (fileSize fileMtime tmpSize entrySize : Int)
    (h4 : 4 ≤ (lineItems rawLine).length)
    (hpass : ¬(0 < (computeFilterSuffixes cfg.suffixes).length ∧
      ((computeFilterSuffixes cfg.suffixes).any fun s =>
        s.isSuffixOf ((lineItems rawLine).getD 0 [])) = false))
    (hS : parseInt64 ((lineItems rawLine).getD 1 []) = some fileSize)
    (hM : parseInt64 ((lineItems rawLine).getD 3 []) = some fileMtime)
    (hfin : fsv.statFinal
      (joinPath cfg.destDir ((lineItems rawLine).getD 0 [])) = none)
    (htmp : fsv.statTmp
      (tmpPath (joinPath cfg.destDir ((lineItems rawLine).getD 0 [])))
      = some tmpSize)
    (hentry : storeGet store
        (joinPath cfg.destDir ((lineItems rawLine).getD 0 []))
      = some (encodeEntry fileMtime entrySize))
    (hge : ¬tmpSize < fileSize) :
    controllerStep cwd cfg fsv store rawLine =
      ⟨.promote, store, none, none,
       some (tmpPath (joinPath cfg.destDir ((lineItems rawLine).getD 0 [])),
         joinPath cfg.destDir ((lineItems rawLine).getD 0 [])),
       0, 0, false⟩ := by
  have hm := parseInt64_range _ _ hM
  have hdec : decodeLmd (encodeEntry fileMtime entrySize) = fileMtime :=
    decodeLmd_encodeEntry _ _ hm.1 hm.2
  simp only [controllerStep]
  rw [if_pos h4, if_neg hpass]
  simp only [hS, hM, hfin, htmp, hentry, hdec]
  rw [if_pos trivial, if_neg hge]

/-- Satisfied branches (lines 283–287 and 297–303): the final file
exists with the remote size and the resume record is either absent or
decodes to the current modification time. -/
theorem controllerStep_satisfied (cwd : Str) (cfg : DownConfig) (fsv : FView)
    (store : Store) (rawLine : Str) (fileSize fileMtime localSize : Int)
    (h4 : 4 ≤ (lineItems rawLine).length)
    (hpass : ¬(0 < (computeFilterSuffixes cfg.suffixes).length ∧
      ((computeFilterSuffixes cfg.suffixes).any fun s =>
        s.isSuffixOf ((lineItems rawLine).getD 0 [])) = false))
    (hS : parseInt64 ((lineItems rawLine).getD 1 []) = some fileSize)
    (hM : parseInt64 ((lineItems rawLine).getD 3 []) = some fileMtime)
    (hfin : fsv.statFinal
      (joinPath cfg.destDir ((lineItems rawLine).getD 0 []))
      = some localSize)
    (hentry : storeGet store
        (joinPath cfg.destDir ((lineItems rawLine).getD 0 [])) = none ∨
      ∃ entrySize, storeGet store
        (joinPath cfg.destDir ((lineItems rawLine).getD 0 []))
        = some (encodeEntry fileMtime entrySize))
    (hsz : localSize = fileSize) :
    controllerStep cwd cfg fsv store rawLine =
      ⟨.satisfied, store, none, none, none, 1, 0, true⟩ := by
  rcases hentry with hnone | ⟨entrySize, hsome⟩
  · have hne : ¬localSize ≠ fileSize := not_not_intro hsz
    simp only [controllerStep]
    rw [if_pos h4, if_neg hpass]
    simp only [hS, hM, hfin, hnone]
    rw [if_neg hne]
  · have hm := parseInt64_range _ _ hM
    have hdec : decodeLmd (encodeEntry fileMtime entrySize) = fileMtime :=
      decodeLmd_encodeEntry _ _ hm.1 hm.2
    simp only [controllerStep]
    rw [if_pos h4, if_neg hpass]
    simp only [hS, hM, hfin, hsome, hdec]
    rw [if_pos ⟨trivial, hsz⟩]

/-- Suffix-filter branch (lines 223–238). -/
theorem controllerStep_filtered (cwd : Str) (cfg : DownConfig) (fsv : FView)
    (store : Store) (rawLine : Str)
    (h4 : 4 ≤ (lineItems rawLine).length)
    (hfs : 0 < (computeFilterSuffixes cfg.suffixes).length)
    (hnomatch : ((computeFilterSuffixes cfg.suffixes).any fun s =>
      s.isSuffixOf ((lineItems rawLine).getD 0 [])) = false) :
    controllerStep cwd cfg fsv store rawLine =
      ⟨.filtered, store, none, none, none, 0, 1, true⟩ := by
  simp only [controllerStep]
  rw [if_pos h4, if_pos ⟨hfs, hnomatch⟩]

/-- Short-line branch (line 220): fewer than 4 tab-separated fields. -/
theorem controllerStep_short (cwd : Str) (cfg : DownConfig) (fsv : FView)
    (store : Store) (rawLine : Str)
    (h4 : ¬4 ≤ (lineItems rawLine).length) :
    controllerStep cwd cfg fsv store rawLine =
      ⟨.shortLine, store, none, none, none, 0, 0, false⟩ := by
  simp only [controllerStep]
  rw [if_neg h4]

/-- Unparsable-size branch (lines 240–244). -/
theorem controllerStep_badSize (cwd : Str) (cfg : DownConfig) (fsv : FView)
    (store : Store) (rawLine : Str)
    (h4 : 4 ≤ (lineItems rawLine).length)
    (hpass : ¬(0 < (computeFilterSuffixes cfg.suffixes).length ∧
      ((computeFilterSuffixes cfg.suffixes).any fun s =>
        s.isSuffixOf ((lineItems rawLine).getD 0 [])) = false))
    (hS : parseInt64 ((lineItems rawLine).getD 1 []) = none) :
    controllerStep cwd cfg fsv store rawLine =
      ⟨.badSize, store, none, none, none, 0, 0, true⟩ := by
  simp only [controllerStep]
  rw [if_pos h4, if_neg hpass]
  simp only [hS]

/-- Unparsable-mtime branch (lines 246–250). -/
theorem controllerStep_badMtime (cwd : Str) (cfg : DownConfig) (fsv : FView)
    (store : Store) (rawLine : Str) (fileSize : Int)
    (h4 : 4 ≤ (lineItems rawLine).length)
    (hpass : ¬(0 < (computeFilterSuffixes cfg.suffixes).length ∧
      ((computeFilterSuffixes cfg.suffixes).any fun s =>
        s.isSuffixOf ((lineItems rawLine).getD 0 [])) = false))
    (hS : parseInt64 ((lineItems rawLine).getD 1 []) = some fileSize)
    (hM : parseInt64 ((lineItems rawLine).getD 3 []) = none) :
    controllerStep cwd cfg fsv store rawLine =
      ⟨.badMtime, store, none, none, none, 0, 0, true⟩ := by
  simp only [controllerStep]
  rw [if_pos h4, if_neg hpass]
  simp only [hS, hM]

/-- A line whose classification neither enqueues a task nor writes the
store leaves the run's task list and store untouched; folded over a
whole listing. -/
theorem runLines_frozen (cwd : Str) (cfg : DownConfig) (fsv : FView)
    (store : Store) (lines : List Str)
    (H0 : ∀ l ∈ lines, (controllerStep cwd cfg fsv store l).enqueued = none ∧
      (controllerStep cwd cfg fsv store l).store' = store) :
    ∀ s : RunState, s.store = store →
      (runLines cwd cfg fsv s lines).tasks = s.tasks ∧
      (runLines cwd cfg fsv s lines).store = store := by
  induction lines with
  | nil => intro s hs; exact ⟨rfl, hs⟩
  | cons l rest ih =>
    intro s hs
    have hl := H0 l (List.mem_cons_self l rest)
    have hstep : runStep cwd cfg fsv s l =
        ⟨store, s.tasks,
         s.existsFileCount + (controllerStep cwd cfg fsv store l).existsDelta,
         s.skipBySuffixes + (controllerStep cwd cfg fsv store l).skipDelta⟩ := by
      simp only [runStep, hs, hl.1, hl.2, Option.toList_none, List.append_nil]
    have ih' := ih (fun l' hl' => H0 l' (List.mem_cons_of_mem l hl'))
      (runStep cwd cfg fsv s l) (by rw [hstep])
    rw [runLines]
    refine ⟨?_, ih'.2⟩
    rw [ih'.1, hstep]

/-- Per-line no-dispatch lemma for the second run: if every well-formed,
suffix-passing line's final file has the remote size and its resume
record (when found under the controller's lookup key) decodes to the
current modification time, the line enqueues nothing and leaves the
store unchanged. -/
theorem second_run_line_no_dispatch (cwd : Str) (cfg : DownConfig)
    (fsv : FView) (store : Store) (l : Str)
    (H : 4 ≤ (lineItems l).length →
      ¬(0 < (computeFilterSuffixes cfg.suffixes).length ∧
        ((computeFilterSuffixes cfg.suffixes).any fun s =>
          s.isSuffixOf ((lineItems l).getD 0 [])) = false) →
      ∀ S M, parseInt64 ((lineItems l).getD 1 []) = some S →
        parseInt64 ((lineItems l).getD 3 []) = some M →
        fsv.statFinal (joinPath cfg.destDir ((lineItems l).getD 0 []))
          = some S ∧
        (storeGet store (joinPath cfg.destDir ((lineItems l).getD 0 []))
            = none ∨
          ∃ es, storeGet store
              (joinPath cfg.destDir ((lineItems l).getD 0 []))
            = some (encodeEntry M es))) :
    (controllerStep cwd cfg fsv store l).enqueued = none ∧
    (controllerStep cwd cfg fsv store l).store' = store := by
  by_cases h4 : 4 ≤ (lineItems l).length
  · by_cases hskip : 0 < (computeFilterSuffixes cfg.suffixes).length ∧
      ((computeFilterSuffixes cfg.suffixes).any fun s =>
        s.isSuffixOf ((lineItems l).getD 0 [])) = false
    · rw [controllerStep_filtered cwd cfg fsv store l h4 hskip.1 hskip.2]
      exact ⟨rfl, rfl⟩
    · cases hp1 : parseInt64 ((lineItems l).getD 1 []) with
      | none =>
        rw [controllerStep_badSize cwd cfg fsv store l h4 hskip hp1]
        exact ⟨rfl, rfl⟩
      | some S =>
        cases hp3 : parseInt64 ((lineItems l).getD 3 []) with
        | none =>
          rw [controllerStep_badMtime cwd cfg fsv store l S h4 hskip hp1 hp3]
          exact ⟨rfl, rfl⟩
        | some M =>
          obtain ⟨hfin, hst⟩ := H h4 hskip S M hp1 hp3
          rw [controllerStep_satisfied cwd cfg fsv store l S M S
            h4 hskip hp1 hp3 hfin hst rfl]
          exact ⟨rfl, rfl⟩
  · rw [controllerStep_short cwd cfg fsv store l h4]
    exact ⟨rfl, rfl⟩

/-! ## Claim theorems -/

/-- C1.  The claim fails on the code: the resume entry is written under
the absolutized local path (line 344) but classification reads under
the non-absolutized joined path (line 277).  With destination directory
`"d"` relative to working directory `"/w"`, an object `"a"` whose
recorded modification time is `9`, whose current modification time is
`5`, and whose size `1` is unchanged and equals the local file's size,
is classified `satisfied` (via the no-record size-match heuristic of
line 297), not as a fresh download. -/
theorem change_detection_defeated_by_relative_destdir :
    storeGet [(absPath ['/', 'w'] (joinPath ['d'] ['a']), encodeEntry 9 1)]
        (absPath ['/', 'w'] (joinPath ['d'] ['a'])) = some (encodeEntry 9 1) ∧
    decodeLmd (encodeEntry 9 1) ≠ 5 ∧
    (controllerStep ['/', 'w'] ⟨['d'], []⟩
        ⟨fun p => if p = ['d', '/', 'a'] then some 1 else none, fun _ => none⟩
        [(absPath ['/', 'w'] (joinPath ['d'] ['a']), encodeEntry 9 1)]
        ['a', '\t', '1', '\t', 'e', '\t', '5']).action
      = .satisfied := by
  decide

/-- C4.  The claim fails on the code: the controller's `Put` (line 344)
keys the resume entry by `localAbsFilePath` while both classification
`Get`s (lines 277, 310) key by `localFilePath`; with a relative
destination directory these keys differ, so the read after the write
misses the entry just written. -/
theorem resume_entry_write_read_key_mismatch :
    (controllerStep ['/', 'w'] ⟨['d'], []⟩ ⟨fun _ => none, fun _ => none⟩ []
        ['a', '\t', '1', '\t', 'e', '\t', '5']).storeWrite
      = some (absPath ['/', 'w'] (joinPath ['d'] ['a']), encodeEntry 5 1) ∧
    joinPath ['d'] ['a'] ≠ absPath ['/', 'w'] (joinPath ['d'] ['a']) ∧
    storeGet
      (controllerStep ['/', 'w'] ⟨['d'], []⟩ ⟨fun _ => none, fun _ => none⟩ []
        ['a', '\t', '1', '\t', 'e', '\t', '5']).store'
      (joinPath ['d'] ['a']) = none := by
  decide

/-- C3.  Atomicity of `downloadFile`: whenever the transfer fails — at
`MkdirAll`, proxy parse, `NewRequest`, `client.Do`, on a non-2xx
status, at open, at copy, or at rename — the final path's content is
unchanged and an existing temporary file is never deleted; and the only
error-free outcome is the rename of a temp file holding the complete
response body appended to the resumed prefix. -/
theorem transfer_atomicity (env : TransferEnv) (fromBytes : Int)
    (fs : FileSys) :
    ((downloadFileM env fromBytes fs).err = true →
      (downloadFileM env fromBytes fs).fs.finalContent = fs.finalContent ∧
      (fs.tmpContent.isSome = true →
        (downloadFileM env fromBytes fs).fs.tmpContent.isSome = true)) ∧
    (∀ status body, env.net = .resp status body →
      (downloadFileM env fromBytes fs).err = false →
      (downloadFileM env fromBytes fs).fs.finalContent
        = some ((if fromBytes = 0 then [] else fs.tmpContent.getD []) ++ body)) := by
  obtain ⟨mk, px, net, op, cp, rn⟩ := env
  cases mk
  · simp [downloadFileM]
  cases px
  · simp [downloadFileM]
  cases net with
  | reqErr => simp [downloadFileM]
  | respErr => simp [downloadFileM]
  | resp status body =>
    by_cases hst : status / 100 = 2
    · by_cases hfb : fromBytes = 0
      · cases op
        · simp [downloadFileM, hst, hfb]
        · cases cp with
          | errAfter k => simp [downloadFileM, hst, hfb]
          | ok =>
            cases rn
            · simp [downloadFileM, hst, hfb]
            · simp [downloadFileM, hst, hfb]
      · cases htmp : fs.tmpContent with
        | none => simp [downloadFileM, hst, hfb, htmp]
        | some t =>
          cases op
          · simp [downloadFileM, hst, hfb, htmp]
          · cases cp with
            | errAfter k => simp [downloadFileM, hst, hfb, htmp]
            | ok =>
              cases rn
              · simp [downloadFileM, hst, hfb, htmp]
              · simp [downloadFileM, hst, hfb, htmp]
    · simp [downloadFileM, hst]

/-- C3 witness: a copy error after 2 of 3 body bytes leaves the final
path unchanged and the (truncated, partially rewritten) temp file in
place. -/
theorem transfer_atomicity_witness :
    (downloadFileM ⟨true, true, .resp 200 [7, 8, 9], true, .errAfter 2, true⟩
        0 ⟨some [1], some [5]⟩).fs.finalContent = some [1] ∧
    (downloadFileM ⟨true, true, .resp 200 [7, 8, 9], true, .errAfter 2, true⟩
        0 ⟨some [1], some [5]⟩).fs.tmpContent.isSome = true := by
  have h := transfer_atomicity
    ⟨true, true, .resp 200 [7, 8, 9], true, .errAfter 2, true⟩
    0 ⟨some [1], some [5]⟩
  exact ⟨(h.1 (by decide)).1, (h.1 (by decide)).2 (by decide)⟩

/-- C10.  In `downloadFile` the `Range` header is sent iff the starting
offset is nonzero (line 458) and the temp file is opened in append mode
iff the offset is nonzero (line 474); at offset zero the temp file is
created/truncated, so the result is independent of any prior temp
content — an offset-zero resume behaves exactly like a fresh
download. -/
theorem range_header_and_append_iff_nonzero_offset
    (env : TransferEnv) (fromBytes : Int) (fs : FileSys)
    (status : Nat) (body : List Nat)
    (hmk : env.mkdirOk = true) (hpx : env.proxyOk = true)
    (hnet : env.net = .resp status body) :
    ((downloadFileM env fromBytes fs).rangeRequested
      = if fromBytes = 0 then none else some fromBytes) ∧
    (status / 100 = 2 →
      (downloadFileM env fromBytes fs).appendUsed
        = some (decide (fromBytes ≠ 0))) ∧
    (fromBytes = 0 → status / 100 = 2 → env.openOk = true →
      ∀ fin t₁ t₂, downloadFileM env fromBytes ⟨fin, t₁⟩
        = downloadFileM env fromBytes ⟨fin, t₂⟩) := by
  obtain ⟨mk, px, net, op, cp, rn⟩ := env
  cases hnet
  subst hmk
  subst hpx
  by_cases hst : status / 100 = 2
  · by_cases hfb : fromBytes = 0
    · subst hfb
      refine ⟨by cases op <;> cases cp <;> cases rn <;> simp [downloadFileM, hst],
        fun _ => ?_, fun _ _ hop fin t₁ t₂ => ?_⟩
      · cases op <;> cases cp <;> cases rn <;> simp [downloadFileM, hst]
      · subst hop
        cases cp <;> cases rn <;> simp [downloadFileM, hst]
    · refine ⟨?_, fun _ => ?_, fun h0 => absurd h0 hfb⟩
      · cases htmp : fs.tmpContent with
        | none => cases op <;> simp [downloadFileM, hst, hfb, htmp]
        | some t =>
          cases op <;> cases cp <;> cases rn <;>
            simp [downloadFileM, hst, hfb, htmp]
      · cases htmp : fs.tmpContent with
        | none => cases op <;> simp [downloadFileM, hst, hfb, htmp]
        | some t =>
          cases op <;> cases cp <;> cases rn <;>
            simp [downloadFileM, hst, hfb, htmp]
  · by_cases hfb : fromBytes = 0
    · exact ⟨by simp [downloadFileM, hst, hfb],
        fun h => absurd h hst, fun _ h => absurd h hst⟩
    · exact ⟨by simp [downloadFileM, hst, hfb],
        fun h => absurd h hst, fun h0 => absurd h0 hfb⟩

/-- C5.  Idempotence of a second run: if, for every well-formed and
suffix-passing listing line, the final file exists with the remote size
and the resume record found under the controller's lookup key (if any)
decodes to the line's current modification time — exactly the state an
immediately preceding fully successful run leaves behind, whether the
entry is found (absolute destination directory) or missed (relative
one) — then the second run enqueues no task, leaves the store
unchanged, and classifies every well-formed suffix-passing line as
satisfied. -/
theorem second_run_idempotent (cwd : Str) (cfg : DownConfig) (fsv : FView)
    (store : Store) (lines : List Str)
    (H : ∀ l ∈ lines, 4 ≤ (lineItems l).length →
      ¬(0 < (computeFilterSuffixes cfg.suffixes).length ∧
        ((computeFilterSuffixes cfg.suffixes).any fun s =>
          s.isSuffixOf ((lineItems l).getD 0 [])) = false) →
      ∀ S M, parseInt64 ((lineItems l).getD 1 []) = some S →
        parseInt64 ((lineItems l).getD 3 []) = some M →
        fsv.statFinal (joinPath cfg.destDir ((lineItems l).getD 0 []))
          = some S ∧
        (storeGet store (joinPath cfg.destDir ((lineItems l).getD 0 []))
            = none ∨
          ∃ es, storeGet store
              (joinPath cfg.destDir ((lineItems l).getD 0 []))
            = some (encodeEntry M es))) :
    (runLines cwd cfg fsv ⟨store, [], 0, 0⟩ lines).tasks = [] ∧
    (runLines cwd cfg fsv ⟨store, [], 0, 0⟩ lines).store = store ∧
    ∀ l ∈ lines, ∀ S M, 4 ≤ (lineItems l).length →
      ¬(0 < (computeFilterSuffixes cfg.suffixes).length ∧
        ((computeFilterSuffixes cfg.suffixes).any fun s =>
          s.isSuffixOf ((lineItems l).getD 0 [])) = false) →
      parseInt64 ((lineItems l).getD 1 []) = some S →
      parseInt64 ((lineItems l).getD 3 []) = some M →
      (controllerStep cwd cfg fsv store l).action = .satisfied := by
  have H0 : ∀ l ∈ lines,
      (controllerStep cwd cfg fsv store l).enqueued = none ∧
      (controllerStep cwd cfg fsv store l).store' = store :=
    fun l hl => second_run_line_no_dispatch cwd cfg fsv store l (H l hl)
  have hrun := runLines_frozen cwd cfg fsv store lines H0 ⟨store, [], 0, 0⟩ rfl
  refine ⟨hrun.1, hrun.2, fun l hl S M h4 hskip hp1 hp3 => ?_⟩
  obtain ⟨hfin, hst⟩ := H l hl h4 hskip S M hp1 hp3
  rw [controllerStep_satisfied cwd cfg fsv store l S M S
    h4 hskip hp1 hp3 hfin hst rfl]

/-- C5 witness: a one-object listing whose final file is in place with
the recorded entry from the first run dispatches nothing and is
classified satisfied. -/
theorem second_run_idempotent_witness :
    (runLines ['/', 'w'] ⟨['/', 'd'], []⟩
        ⟨fun p => if p = joinPath ['/', 'd'] ['a'] then some 1 else none,
         fun _ => none⟩
        ⟨[(joinPath ['/', 'd'] ['a'], encodeEntry 5 1)], [], 0, 0⟩
        [['a', '\t', '1', '\t', 'e', '\t', '5']]).tasks = [] ∧
    (controllerStep ['/', 'w'] ⟨['/', 'd'], []⟩
        ⟨fun p => if p = joinPath ['/', 'd'] ['a'] then some 1 else none,
         fun _ => none⟩
        [(joinPath ['/', 'd'] ['a'], encodeEntry 5 1)]
        ['a', '\t', '1', '\t', 'e', '\t', '5']).action = .satisfied := by
  have h := second_run_idempotent ['/', 'w'] ⟨['/', 'd'], []⟩
    ⟨fun p => if p = joinPath ['/', 'd'] ['a'] then some 1 else none,
     fun _ => none⟩
    [(joinPath ['/', 'd'] ['a'], encodeEntry 5 1)]
    [['a', '\t', '1', '\t', 'e', '\t', '5']] ?_
  · refine ⟨h.1, ?_⟩
    exact h.2.2 ['a', '\t', '1', '\t', 'e', '\t', '5']
      (List.mem_singleton.mpr rfl) 1 5 (by decide) (by decide)
      (by decide) (by decide)
  · intro l hl
    rw [List.mem_singleton.mp hl]
    intro h4 hskip S M hp1 hp3
    have hS : S = 1 := by
      have := (by decide :
        parseInt64 ((lineItems ['a', '\t', '1', '\t', 'e', '\t', '5']).getD
          1 []) = some 1)
      rw [this] at hp1
      exact (Option.some.inj hp1).symm
    have hM : M = 5 := by
      have := (by decide :
        parseInt64 ((lineItems ['a', '\t', '1', '\t', 'e', '\t', '5']).getD
          3 []) = some 5)
      rw [this] at hp3
      exact (Option.some.inj hp3).symm
    subst hS; subst hM
    exact ⟨by decide, Or.inr ⟨1, by decide⟩⟩

/-- C7 counterexample.  The queue is created inside `initDownOnce.Do`
(line 177): an invocation in a process whose pool was already sized 3
does not create a queue of its requested capacity 5 — the claim's
"for every invocation the task queue is created with capacity equal to
the worker count" fails on the second invocation. -/
theorem worker_pool_second_invocation_counterexample :
    (initDownloadTasks (some (makeDownloadTasks 3)) 5).capacity = 3 ∧
    ¬(initDownloadTasks (some (makeDownloadTasks 3)) 5).capacity = 5 := by
  decide

/-- C7 (amended).  A validated worker count lies within the declared
bounds 1..2000; on the process's **first** invocation the task queue is
created with capacity equal to the worker count (later invocations
reuse the existing queue, ignoring their thread count); and a send on a
Go buffered channel blocks exactly when it already buffers `capacity`
pending tasks. -/
theorem worker_pool_bounds_and_capacity (tc : Int)
    (hv : validThreadCount tc = true) :
    (1 ≤ tc ∧ tc ≤ 2000) ∧
    initDownloadTasks none tc = makeDownloadTasks tc ∧
    ((makeDownloadTasks tc).capacity : Int) = tc ∧
    (makeDownloadTasks tc).pending = 0 ∧
    (∀ c, initDownloadTasks (some c) tc = c) ∧
    (∀ q : TaskChan, sendWouldBlock q = true ↔ q.capacity ≤ q.pending) := by
  have hb : MIN_DOWNLOAD_THREAD_COUNT ≤ tc ∧ tc ≤ MAX_DOWNLOAD_THREAD_COUNT := by
    simpa [validThreadCount, Bool.and_eq_true, decide_eq_true_eq] using hv
  rw [MIN_DOWNLOAD_THREAD_COUNT] at hb
  rw [MAX_DOWNLOAD_THREAD_COUNT] at hb
  refine ⟨hb, rfl, ?_, rfl, fun c => rfl, fun q => ?_⟩
  · exact Int.toNat_of_nonneg (by omega)
  · simp [sendWouldBlock]

/-- C7 witness: worker count 8 validates, the queue has capacity 8, and
a send blocks once 8 tasks are pending. -/
theorem worker_pool_witness :
    ((makeDownloadTasks 8).capacity : Int) = 8 ∧
    sendWouldBlock ⟨(makeDownloadTasks 8).capacity, 8⟩ = true := by
  have h := worker_pool_bounds_and_capacity 8 (by decide)
  exact ⟨h.2.2.1,
    (h.2.2.2.2.2 ⟨(makeDownloadTasks 8).capacity, 8⟩).mpr (by decide)⟩

/-- C8 counterexample.  A one-field line (`"abc"`) is skipped with no
dispatch, but contrary to the claim it is **not** logged (the
`len(items) >= 4` test at line 220 has no else branch) and it **is**
counted by the `total` counter, which is the listing file's line count
(line 193). -/
theorem malformed_line_counterexample :
    (controllerStep ['/', 'w'] ⟨['/', 'd'], []⟩ ⟨fun _ => none, fun _ => none⟩
        [] ['a', 'b', 'c']).logged = false ∧
    (controllerStep ['/', 'w'] ⟨['/', 'd'], []⟩ ⟨fun _ => none, fun _ => none⟩
        [] ['a', 'b', 'c']).enqueued = none ∧
    totalFileCount [['a', 'b', 'c']] = 1 := by
  decide

/-- C8 (amended).  A malformed line — fewer than 4 tab-separated
fields, or (suffix-passing with) an unparsable size or modification
time — is skipped: nothing is dispatched, no store write, no rename,
no satisfied count; a parse failure is logged but a short line is
skipped silently; and every line, malformed included, is counted by the
`total` counter, which is the listing's line count. -/
theorem malformed_line_skipped (cwd : Str) (cfg : DownConfig) (fsv : FView)
    (store : Store) (rawLine : Str) (lines : List Str)
    (hmal : ¬4 ≤ (lineItems rawLine).length ∨
      (4 ≤ (lineItems rawLine).length ∧
        ¬(0 < (computeFilterSuffixes cfg.suffixes).length ∧
          ((computeFilterSuffixes cfg.suffixes).any fun s =>
            s.isSuffixOf ((lineItems rawLine).getD 0 [])) = false) ∧
        parseInt64 ((lineItems rawLine).getD 1 []) = none) ∨
      (4 ≤ (lineItems rawLine).length ∧
        ¬(0 < (computeFilterSuffixes cfg.suffixes).length ∧
          ((computeFilterSuffixes cfg.suffixes).any fun s =>
            s.isSuffixOf ((lineItems rawLine).getD 0 [])) = false) ∧
        (∃ S, parseInt64 ((lineItems rawLine).getD 1 []) = some S) ∧
        parseInt64 ((lineItems rawLine).getD 3 []) = none)) :
    (controllerStep cwd cfg fsv store rawLine).enqueued = none ∧
    (controllerStep cwd cfg fsv store rawLine).storeWrite = none ∧
    (controllerStep cwd cfg fsv store rawLine).renamed = none ∧
    (controllerStep cwd cfg fsv store rawLine).existsDelta = 0 ∧
    (controllerStep cwd cfg fsv store rawLine).store' = store ∧
    ((controllerStep cwd cfg fsv store rawLine).logged = true ↔
      4 ≤ (lineItems rawLine).length) ∧
    totalFileCount (rawLine :: lines) = 1 + totalFileCount lines := by
  have htot : totalFileCount (rawLine :: lines) = 1 + totalFileCount lines := by
    simp only [totalFileCount, List.length_cons]
    push_cast
    ring
  rcases hmal with h4 | ⟨h4, hpass, hS⟩ | ⟨h4, hpass, ⟨S, hS⟩, hM⟩
  · rw [controllerStep_short cwd cfg fsv store rawLine h4]
    exact ⟨rfl, rfl, rfl, rfl, rfl, by simpa using h4, htot⟩
  · rw [controllerStep_badSize cwd cfg fsv store rawLine h4 hpass hS]
    exact ⟨rfl, rfl, rfl, rfl, rfl, by simpa using h4, htot⟩
  · rw [controllerStep_badMtime cwd cfg fsv store rawLine S h4 hpass hS hM]
    exact ⟨rfl, rfl, rfl, rfl, rfl, by simpa using h4, htot⟩

/-- C8 witness: a line with an unparsable size field is skipped and
logged, dispatches nothing, and still counts toward `total`. -/
theorem malformed_line_skipped_witness :
    (controllerStep ['/', 'w'] ⟨['/', 'd'], []⟩ ⟨fun _ => none, fun _ => none⟩
        [] ['a', '\t', 'x', '\t', 'e', '\t', '5']).enqueued = none ∧
    (controllerStep ['/', 'w'] ⟨['/', 'd'], []⟩ ⟨fun _ => none, fun _ => none⟩
        [] ['a', '\t', 'x', '\t', 'e', '\t', '5']).logged = true ∧
    totalFileCount [['a', '\t', 'x', '\t', 'e', '\t', '5']]
      = 1 + totalFileCount [] := by
  have h := malformed_line_skipped ['/', 'w'] ⟨['/', 'd'], []⟩
    ⟨fun _ => none, fun _ => none⟩ [] ['a', '\t', 'x', '\t', 'e', '\t', '5']
    [] (Or.inr (Or.inl ⟨by decide, by decide, by decide⟩))
  exact ⟨h.1, h.2.2.2.2.2.1.mpr (by decide), h.2.2.2.2.2.2⟩

/-- C2 counterexample.  The claim quantifies over every temp-file size
`K < S`, but at `K = 0` (an empty temp file, matching recorded mtime,
`S = 1`) the dispatched transfer sends **no** `Range` header
(line 458 guards on `fromBytes != 0`) and opens the temp file with
`Create` (truncate), not append — no byte-range request for
`[0, end)` is issued. -/
theorem resume_zero_offset_no_range_counterexample :
    (controllerStep ['/', 'w'] ⟨['/', 'd'], []⟩
        ⟨fun _ => none,
         fun p => if p = tmpPath (joinPath ['/', 'd'] ['a']) then some 0
           else none⟩
        [(joinPath ['/', 'd'] ['a'], encodeEntry 5 1)]
        ['a', '\t', '1', '\t', 'e', '\t', '5']).action
      = .dispatch false 0 ∧
    (downloadFileM ⟨true, true, .resp 200 [9], true, .ok, true⟩ 0
        ⟨none, some []⟩).rangeRequested = none ∧
    (downloadFileM ⟨true, true, .resp 200 [9], true, .ok, true⟩ 0
        ⟨none, some []⟩).appendUsed = some false ∧
    (downloadFileM ⟨true, true, .resp 200 [9], true, .ok, true⟩ 0
        ⟨none, some []⟩).err = false := by
  decide

/-- C2 (amended to `0 < K`).  For an object with no final file, a temp
file of size `K` with `0 < K < S`, and a resume entry whose recorded
modification time equals the object's current one, the controller
dispatches a resumed transfer at offset `K`; the transfer sends
`Range: bytes=K-`, opens the temp file in append mode, and — when the
server returns the object's bytes from offset `K` — succeeds with a
promoted final file of size exactly `S`.  (At `K = 0` the transfer
instead behaves as a fresh download: no `Range` header, truncating
open.) -/
theorem resume_range_request_and_final_size
    (cwd : Str) (cfg : DownConfig) (fsv : FView) (store : Store)
    (rawLine : Str) (fileSize fileMtime K entrySize : Int)
    (h4 : 4 ≤ (lineItems rawLine).length)
    (hpass : ¬(0 < (computeFilterSuffixes cfg.suffixes).length ∧
      ((computeFilterSuffixes cfg.suffixes).any fun s =>
        s.isSuffixOf ((lineItems rawLine).getD 0 [])) = false))
    (hS : parseInt64 ((lineItems rawLine).getD 1 []) = some fileSize)
    (hM : parseInt64 ((lineItems rawLine).getD 3 []) = some fileMtime)
    (hfin : fsv.statFinal
      (joinPath cfg.destDir ((lineItems rawLine).getD 0 [])) = none)
    (htmp : fsv.statTmp
      (tmpPath (joinPath cfg.destDir ((lineItems rawLine).getD 0 [])))
      = some K)
    (hentry : storeGet store
        (joinPath cfg.destDir ((lineItems rawLine).getD 0 []))
      = some (encodeEntry fileMtime entrySize))
    (hK0 : 0 < K) (hKS : K < fileSize)
    (env : TransferEnv) (fin : Option (List Nat)) (t content : List Nat)
    (ht : (t.length : Int) = K) (hcontent : (content.length : Int) = fileSize)
    (hmk : env.mkdirOk = true) (hpx : env.proxyOk = true)
    (hnet : env.net = .resp 206 (content.drop t.length))
    (hopen : env.openOk = true) (hcopy : env.copy = .ok)
    (hrn : env.renameOk = true) :
    (controllerStep cwd cfg fsv store rawLine).action = .dispatch false K ∧
    (controllerStep cwd cfg fsv store rawLine).enqueued
      = some ⟨(lineItems rawLine).getD 0 [], fileSize, false, K⟩ ∧
    (downloadFileM env K ⟨fin, some t⟩).rangeRequested = some K ∧
    (downloadFileM env K ⟨fin, some t⟩).appendUsed = some true ∧
    (downloadFileM env K ⟨fin, some t⟩).err = false ∧
    (downloadFileM env K ⟨fin, some t⟩).fs.finalContent
      = some (t ++ content.drop t.length) ∧
    (((t ++ content.drop t.length).length : Int)) = fileSize := by
  have hstep := controllerStep_resume cwd cfg fsv store rawLine
    fileSize fileMtime K entrySize h4 hpass hS hM hfin htmp hentry hKS
  have hKne : ¬K = 0 := by omega
  obtain ⟨mk, px, net, op, cp, rn⟩ := env
  simp only at hmk hpx hnet hopen hcopy hrn
  subst hmk; subst hpx; subst hnet; subst hopen; subst hcopy; subst hrn
  have hdl : downloadFileM
      ⟨true, true, .resp 206 (content.drop t.length), true, .ok, true⟩ K
      ⟨fin, some t⟩
      = ⟨false, ⟨some (t ++ content.drop t.length), none⟩, some K, some true⟩ := by
    simp [downloadFileM, hKne]
  have hlen : ((t ++ content.drop t.length).length : Int) = fileSize := by
    have hle : t.length ≤ content.length := by
      have hcast : (t.length : Int) < (content.length : Int) := by
        rw [ht, hcontent]; exact hKS
      exact_mod_cast le_of_lt hcast
    rw [List.length_append, List.length_drop]
    have harith : t.length + (content.length - t.length) = content.length := by
      omega
    rw [harith, hcontent]
  rw [hstep, hdl]
  exact ⟨rfl, rfl, rfl, rfl, rfl, rfl, hlen⟩

/-- C2 witness: `K = 1`, `S = 2`, object bytes `[7, 8]`, temp holds
`[7]`; the resumed transfer requests `bytes=1-`, appends, and the final
file is `[7, 8]` of size 2. -/
theorem resume_range_request_witness :
    (controllerStep ['/', 'w'] ⟨['/', 'd'], []⟩
        ⟨fun _ => none,
         fun p => if p = tmpPath (joinPath ['/', 'd'] ['a']) then some 1
           else none⟩
        [(joinPath ['/', 'd'] ['a'], encodeEntry 5 2)]
        ['a', '\t', '2', '\t', 'e', '\t', '5']).action
      = .dispatch false 1 ∧
    (downloadFileM ⟨true, true, .resp 206 [8], true, .ok, true⟩ 1
        ⟨none, some [7]⟩).rangeRequested = some 1 ∧
    (downloadFileM ⟨true, true, .resp 206 [8], true, .ok, true⟩ 1
        ⟨none, some [7]⟩).appendUsed = some true ∧
    (downloadFileM ⟨true, true, .resp 206 [8], true, .ok, true⟩ 1
        ⟨none, some [7]⟩).err = false ∧
    (downloadFileM ⟨true, true, .resp 206 [8], true, .ok, true⟩ 1
        ⟨none, some [7]⟩).fs.finalContent = some [7, 8] := by
  have h := resume_range_request_and_final_size ['/', 'w'] ⟨['/', 'd'], []⟩
    ⟨fun _ => none,
     fun p => if p = tmpPath (joinPath ['/', 'd'] ['a']) then some 1
       else none⟩
    [(joinPath ['/', 'd'] ['a'], encodeEntry 5 2)]
    ['a', '\t', '2', '\t', 'e', '\t', '5'] 2 5 1 2
    (by decide) (by decide) (by decide) (by decide) (by decide) (by decide)
    (by decide) (by decide) (by decide)
    ⟨true, true, .resp 206 [8], true, .ok, true⟩ none [7] [7, 8]
    (by decide) (by decide) rfl rfl rfl rfl rfl rfl
  exact ⟨h.1, h.2.2.1, h.2.2.2.1, h.2.2.2.2.1, h.2.2.2.2.2.1⟩

/-- C9 counterexample.  At a concrete input satisfying the claim's
premise (no final file, temp size `2 ≥ target 1`, matching recorded
mtime) the controller renames the temp file and dispatches nothing —
but increments **no** counter: the claim's "counts the object as
already-satisfied" is false (the satisfied branches at lines 286/301
increment `existsFileCount`; the promote branch at lines 320–327 does
not). -/
theorem promote_not_counted_counterexample :
    (controllerStep ['/', 'w'] ⟨['/', 'd'], []⟩
        ⟨fun _ => none,
         fun p => if p = tmpPath (joinPath ['/', 'd'] ['a']) then some 2
           else none⟩
        [(joinPath ['/', 'd'] ['a'], encodeEntry 5 9)]
        ['a', '\t', '1', '\t', 'e', '\t', '5']).action = .promote ∧
    (controllerStep ['/', 'w'] ⟨['/', 'd'], []⟩
        ⟨fun _ => none,
         fun p => if p = tmpPath (joinPath ['/', 'd'] ['a']) then some 2
           else none⟩
        [(joinPath ['/', 'd'] ['a'], encodeEntry 5 9)]
        ['a', '\t', '1', '\t', 'e', '\t', '5']).existsDelta = 0 ∧
    (runLines ['/', 'w'] ⟨['/', 'd'], []⟩
        ⟨fun _ => none,
         fun p => if p = tmpPath (joinPath ['/', 'd'] ['a']) then some 2
           else none⟩
        ⟨[(joinPath ['/', 'd'] ['a'], encodeEntry 5 9)], [], 0, 0⟩
        [['a', '\t', '1', '\t', 'e', '\t', '5']]).existsFileCount = 0 := by
  decide

/-- C9 (amended).  For an object with no final file, a temp file at
least as large as the target, and a resume entry decoding to the
current modification time, the controller renames the temp file to the
final path with no network call and no task dispatch and no store
write — but increments no counter (it is *not* counted as
already-satisfied). -/
theorem promote_renames_without_dispatch_or_count
    (cwd : Str) (cfg : DownConfig) (fsv : FView) (store : Store)
    (rawLine : Str) (fileSize fileMtime tmpSize entrySize : Int)
    (h4 : 4 ≤ (lineItems rawLine).length)
    (hpass : ¬(0 < (computeFilterSuffixes cfg.suffixes).length ∧
      ((computeFilterSuffixes cfg.suffixes).any fun s =>
        s.isSuffixOf ((lineItems rawLine).getD 0 [])) = false))
    (hS : parseInt64 ((lineItems rawLine).getD 1 []) = some fileSize)
    (hM : parseInt64 ((lineItems rawLine).getD 3 []) = some fileMtime)
    (hfin : fsv.statFinal
      (joinPath cfg.destDir ((lineItems rawLine).getD 0 [])) = none)
    (htmp : fsv.statTmp
      (tmpPath (joinPath cfg.destDir ((lineItems rawLine).getD 0 [])))
      = some tmpSize)
    (hentry : storeGet store
        (joinPath cfg.destDir ((lineItems rawLine).getD 0 []))
      = some (encodeEntry fileMtime entrySize))
    (hge : ¬tmpSize < fileSize) :
    controllerStep cwd cfg fsv store rawLine =
      ⟨.promote, store, none, none,
       some (tmpPath (joinPath cfg.destDir ((lineItems rawLine).getD 0 [])),
         joinPath cfg.destDir ((lineItems rawLine).getD 0 [])),
       0, 0, false⟩ :=
  controllerStep_promote cwd cfg fsv store rawLine
    fileSize fileMtime tmpSize entrySize h4 hpass hS hM hfin htmp hentry hge

/-- C9 witness: concrete promote with no dispatch, no store write and
zero counter deltas. -/
theorem promote_renames_witness :
    controllerStep ['/', 'w'] ⟨['/', 'd'], []⟩
        ⟨fun _ => none,
         fun p => if p = tmpPath (joinPath ['/', 'd'] ['a']) then some 3
           else none⟩
        [(joinPath ['/', 'd'] ['a'], encodeEntry 5 9)]
        ['a', '\t', '2', '\t', 'e', '\t', '5'] =
      ⟨.promote, [(joinPath ['/', 'd'] ['a'], encodeEntry 5 9)], none, none,
       some (tmpPath (joinPath ['/', 'd'] ['a']), joinPath ['/', 'd'] ['a']),
       0, 0, false⟩ := by
  have h := promote_renames_without_dispatch_or_count ['/', 'w']
    ⟨['/', 'd'], []⟩
    ⟨fun _ => none,
     fun p => if p = tmpPath (joinPath ['/', 'd'] ['a']) then some 3
       else none⟩
    [(joinPath ['/', 'd'] ['a'], encodeEntry 5 9)]
    ['a', '\t', '2', '\t', 'e', '\t', '5'] 2 5 3 9
    (by decide) (by decide) (by decide) (by decide) (by decide) (by decide)
    (by decide) (by decide)
  simpa using h

/-- C6.  An object (a line with ≥ 4 fields) whose key ends in none of
the configured non-empty suffixes is disposed of with only the
suffix-filtered counter incremented: no task is enqueued, no store
write or rename happens, the store is returned unchanged, and the
result does not depend on the filesystem view or on the store —
classification never stats a file nor reads the store for it
(lines 223–238 run before any stat or store access). -/
theorem suffix_filter_frame (cwd : Str) (cfg : DownConfig) (fsv : FView)
    (store : Store) (rawLine : Str)
    (h4 : 4 ≤ (lineItems rawLine).length)
    (hfs : 0 < (computeFilterSuffixes cfg.suffixes).length)
    (hnomatch : ((computeFilterSuffixes cfg.suffixes).any fun s =>
      s.isSuffixOf ((lineItems rawLine).getD 0 [])) = false) :
    controllerStep cwd cfg fsv store rawLine =
      ⟨.filtered, store, none, none, none, 0, 1, true⟩ ∧
    (∀ fsv₂ : FView, ∀ store₂ : Store,
      (controllerStep cwd cfg fsv₂ store₂ rawLine).action
        = (controllerStep cwd cfg fsv store rawLine).action ∧
      (controllerStep cwd cfg fsv₂ store₂ rawLine).enqueued
        = (controllerStep cwd cfg fsv store rawLine).enqueued) := by
  refine ⟨controllerStep_filtered cwd cfg fsv store rawLine h4 hfs hnomatch,
    fun fsv₂ store₂ => ?_⟩
  rw [controllerStep_filtered cwd cfg fsv₂ store₂ rawLine h4 hfs hnomatch,
    controllerStep_filtered cwd cfg fsv store rawLine h4 hfs hnomatch]
  exact ⟨rfl, rfl⟩

/-- C6 witness: suffix list `".png"`, key `"a"`: filtered, skip counter
1, nothing else. -/
theorem suffix_filter_witness :
    controllerStep ['/', 'w'] ⟨['/', 'd'], ['.', 'p', 'n', 'g']⟩
        ⟨fun _ => none, fun _ => none⟩ []
        ['a', '\t', '1', '\t', 'e', '\t', '5'] =
      ⟨.filtered, [], none, none, none, 0, 1, true⟩ := by
  exact (suffix_filter_frame ['/', 'w'] ⟨['/', 'd'], ['.', 'p', 'n', 'g']⟩
    ⟨fun _ => none, fun _ => none⟩ []
    ['a', '\t', '1', '\t', 'e', '\t', '5']
    (by decide) (by decide) (by decide)).1

/-- C10 witness: with offset 3 the `Range: bytes=3-` header is sent and
append mode is used; with offset 0 no `Range` header is sent. -/
theorem range_header_witness :
    (downloadFileM ⟨true, true, .resp 200 [7], true, .ok, true⟩ 3
        ⟨none, some [1, 2, 3]⟩).rangeRequested = some 3 ∧
    (downloadFileM ⟨true, true, .resp 200 [7], true, .ok, true⟩ 3
        ⟨none, some [1, 2, 3]⟩).appendUsed = some true ∧
    (downloadFileM ⟨true, true, .resp 200 [7], true, .ok, true⟩ 0
        ⟨none, some [1, 2, 3]⟩).rangeRequested = none := by
  have h3 := range_header_and_append_iff_nonzero_offset
    ⟨true, true, .resp 200 [7], true, .ok, true⟩ 3
    ⟨none, some [1, 2, 3]⟩ 200 [7] rfl rfl rfl
  have h0 := range_header_and_append_iff_nonzero_offset
    ⟨true, true, .resp 200 [7], true, .ok, true⟩ 0
    ⟨none, some [1, 2, 3]⟩ 200 [7] rfl rfl rfl
  refine ⟨?_, ?_, ?_⟩
  · have := h3.1
    simpa using this
  · have := h3.2.1 (by decide)
    simpa using this
  · have := h0.1
    simpa using this

end Qdownload
